import Mathlib

/-!
Shallow embedding of the `duo-auth` Rust crate (Duo Auth API client):
canonical parameter encoding, HMAC-SHA1 request signing, request building,
client construction, per-operation parameter maps, and the JSON response
envelope, together with proofs of the specification claims.

Bytes are modelled as `Nat` values below 256; machine words (SHA-1) as
`Nat` reduced modulo `2 ^ 32` where overflow matters.
-/

namespace DuoAuth

/-- UTF-8 encoding of a single Unicode code point, as bytes (each < 256).
Models Rust's `str::as_bytes` view of a `char`. -/
def utf8EncodeCP (c : Nat) : List Nat :=
  if c < 0x80 then [c]
  else if c < 0x800 then [0xC0 + c / 64, 0x80 + c % 64]
  else if c < 0x10000 then [0xE0 + c / 4096, 0x80 + c / 64 % 64, 0x80 + c % 64]
  else [0xF0 + c / 262144, 0x80 + c / 4096 % 64, 0x80 + c / 64 % 64, 0x80 + c % 64]

/-- UTF-8 bytes of a string (Rust `str::as_bytes`). -/
def strBytes (s : String) : List Nat :=
  s.data.flatMap (fun ch => utf8EncodeCP ch.toNat)

/-- Lowercase hexadecimal digit, as produced by the `hex` crate. -/
def hexDigitLower (n : Nat) : Char :=
  if n < 10 then Char.ofNat (48 + n) else Char.ofNat (87 + n)

/-- Lowercase hexadecimal rendering of a byte sequence (`hex::encode`). -/
def hexEncode (bs : List Nat) : String :=
  ⟨bs.flatMap (fun b => [hexDigitLower (b / 16), hexDigitLower (b % 16)])⟩

/-- Bytes the `urlencoding` crate leaves unescaped: ASCII alphanumerics and
`-`, `.`, `_`, `~`. -/
def isUrlUnreserved (b : Nat) : Bool :=
  (0x41 ≤ b && b ≤ 0x5A) || (0x61 ≤ b && b ≤ 0x7A) || (0x30 ≤ b && b ≤ 0x39) ||
    b == 0x2D || b == 0x2E || b == 0x5F || b == 0x7E

/-- Uppercase hexadecimal digit (the `urlencoding` crate escapes with
uppercase hex). -/
def hexDigitUpper (n : Nat) : Char :=
  if n < 10 then Char.ofNat (48 + n) else Char.ofNat (55 + n)

/-- Percent-encoding of one byte (`urlencoding::encode`, per byte). -/
def pctEncodeByte (b : Nat) : List Char :=
  if isUrlUnreserved b then [Char.ofNat b]
  else ['%', hexDigitUpper (b / 16), hexDigitUpper (b % 16)]

/-- Models `urlencoding::encode`: percent-encode every non-unreserved UTF-8
byte of the string. -/
def urlencode (s : String) : String :=
  ⟨(strBytes s).flatMap pctEncodeByte⟩

/-! ## Parameters (src/request.rs)

`Parameters` wraps a Rust `BTreeMap<String, String>`: entries kept in
ascending key order, `insert` replacing the value of an existing key.
We model it as an association list ordered by the sorted-insert
operation. -/

abbrev Params := List (String × String)

/-- Lexicographic order on character sequences. On strings this coincides
with Rust's `Ord for String` (byte-wise comparison of the UTF-8 encoding),
since UTF-8 byte order agrees with code-point order. -/
def charsLt : List Char → List Char → Bool
  | [], [] => false
  | [], _ :: _ => true
  | _ :: _, [] => false
  | a :: as, b :: bs => if a < b then true else if b < a then false else charsLt as bs

/-- Lexicographic (ascending, code-point-wise) order on strings: the key
order of Rust's `BTreeMap<String, _>`. -/
def strLt (a b : String) : Bool := charsLt a.data b.data

/-- Sorted insertion with replacement: the effect of
`BTreeMap::insert` on the ordered entry sequence. `Parameters::set`. -/
def pset (k v : String) : Params → Params
  | [] => [(k, v)]
  | (k', v') :: rest =>
    if strLt k k' then (k, v) :: (k', v') :: rest
    else if k = k' then (k, v) :: rest
    else (k', v') :: pset k v rest

/-- Models `Parameters::set_opt`: insert only when the value is present. -/
def psetOpt (k : String) (v : Option String) (p : Params) : Params :=
  match v with
  | some v => pset k v p
  | none => p

/-- Lookup of a key (first match), the map-view of the entry list. -/
def getParam : Params → String → Option String
  | [], _ => none
  | (k', v') :: rest, k => if k = k' then some v' else getParam rest k

/-- Models `Vec::join`: concatenate the pieces with the separator between
adjacent pieces and no leading or trailing separator. -/
def joinSep (sep : String) : List String → String
  | [] => ""
  | [x] => x
  | x :: y :: ys => x ++ sep ++ joinSep sep (y :: ys)

/-- Models `Parameters::serialize`: percent-encode each key and value,
join each pair with `=` and the pairs with `&`. -/
def serializeParams (p : Params) : String :=
  joinSep "&" (p.map (fun kv => urlencode kv.1 ++ "=" ++ urlencode kv.2))

/-- Parameter map obtained by applying `set` for each entry of a list in
order, starting from the empty map (`Parameters::default()`). -/
def paramsOfList (ops : List (String × String)) : Params :=
  ops.foldl (fun p kv => pset kv.1 kv.2 p) []

example : serializeParams [("a", "b c"), ("k", "v")] = "a=b%20c&k=v" := by rfl
example : serializeParams [] = "" := by rfl
example : paramsOfList [("z", "1"), ("a", "2"), ("z", "3")] = [("a", "2"), ("z", "3")] := by rfl

/-! ## Order facts about the key comparison -/

theorem charsLt_irrefl (l : List Char) : charsLt l l = false := by
  induction l with
  | nil => rfl
  | cons a as ih => simp [charsLt, lt_irrefl, ih]

theorem charsLt_asymm : ∀ {a b : List Char}, charsLt a b = true → charsLt b a = false
  | [], [], h => by simp [charsLt] at h
  | [], _ :: _, _ => rfl
  | _ :: _, [], h => by simp [charsLt] at h
  | x :: xs, y :: ys, h => by
    by_cases hxy : x < y
    · simp [charsLt, hxy, lt_asymm hxy]
    · by_cases hyx : y < x
      · simp [charsLt, hxy, hyx] at h
      · have hxx : x = y := le_antisymm (not_lt.mp hyx) (not_lt.mp hxy)
        subst hxx
        simp [charsLt, lt_irrefl] at h ⊢
        exact charsLt_asymm h

theorem charsLt_antisymm : ∀ {a b : List Char},
    charsLt a b = false → charsLt b a = false → a = b
  | [], [], _, _ => rfl
  | [], _ :: _, h, _ => by simp [charsLt] at h
  | _ :: _, [], _, h => by simp [charsLt] at h
  | x :: xs, y :: ys, h, h' => by
    by_cases hxy : x < y
    · simp [charsLt, hxy] at h
    · by_cases hyx : y < x
      · simp [charsLt, hyx] at h'
      · have hxx : x = y := le_antisymm (not_lt.mp hyx) (not_lt.mp hxy)
        subst hxx
        simp [charsLt, lt_irrefl] at h h'
        exact congrArg (x :: ·) (charsLt_antisymm h h')

theorem charsLt_trans : ∀ {a b c : List Char},
    charsLt a b = true → charsLt b c = true → charsLt a c = true
  | [], _, _ :: _, _, _ => rfl
  | [], _ :: _, [], _, h' => by simp [charsLt] at h'
  | [], [], [], h, _ => by simp [charsLt] at h
  | _ :: _, [], _, h, _ => by simp [charsLt] at h
  | _ :: _, _ :: _, [], _, h' => by simp [charsLt] at h'
  | x :: xs, y :: ys, z :: zs, h, h' => by
    by_cases hxy : x < y
    · by_cases hyz : y < z
      · simp [charsLt, lt_trans hxy hyz]
      · by_cases hzy : z < y
        · simp [charsLt, hyz, hzy] at h'
        · have : y = z := le_antisymm (not_lt.mp hzy) (not_lt.mp hyz)
          subst this
          simp [charsLt, hxy]
    · by_cases hyx : y < x
      · simp [charsLt, hxy, hyx] at h
      · have : x = y := le_antisymm (not_lt.mp hyx) (not_lt.mp hxy)
        subst this
        simp [charsLt, lt_irrefl] at h
        by_cases hxz : x < z
        · simp [charsLt, hxz]
        · by_cases hzx : z < x
          · simp [charsLt, hxz, hzx] at h'
          · have : x = z := le_antisymm (not_lt.mp hzx) (not_lt.mp hxz)
            subst this
            simp [charsLt, lt_irrefl] at h' ⊢
            exact charsLt_trans h h'

theorem String.eq_of_data_eq {a b : String} (h : a.data = b.data) : a = b := by
  cases a; cases b; exact congrArg String.mk h

theorem strLt_irrefl (s : String) : strLt s s = false := charsLt_irrefl s.data

theorem strLt_asymm {a b : String} (h : strLt a b = true) : strLt b a = false :=
  charsLt_asymm h

theorem strLt_antisymm {a b : String} (h : strLt a b = false) (h' : strLt b a = false) :
    a = b :=
  String.eq_of_data_eq (charsLt_antisymm h h')

theorem strLt_trans {a b c : String} (h : strLt a b = true) (h' : strLt b c = true) :
    strLt a c = true :=
  charsLt_trans h h'

theorem strLt_of_not_of_ne {a b : String} (h : strLt a b = false) (hne : a ≠ b) :
    strLt b a = true := by
  cases hba : strLt b a with
  | true => rfl
  | false => exact absurd (strLt_antisymm h hba) hne

/-! ## Map lemmas for `pset` -/

/-- Strict ascending order between adjacent parameter entries. -/
def keyLt (a b : String × String) : Prop := strLt a.1 b.1 = true

theorem mem_pset {x : String × String} {k v : String} :
    ∀ {p : Params}, x ∈ pset k v p → x = (k, v) ∨ x ∈ p
  | [], h => by simpa [pset] using h
  | (k', v') :: rest, h => by
    by_cases h1 : strLt k k' = true
    · simp only [pset, h1, if_pos] at h
      rcases List.mem_cons.mp h with h | h
      · exact Or.inl h
      · exact Or.inr h
    · by_cases h2 : k = k'
      · subst h2
        simp only [pset, strLt_irrefl, if_neg, if_pos, Bool.false_eq_true, not_false_iff] at h
        rcases List.mem_cons.mp h with h | h
        · exact Or.inl h
        · exact Or.inr (List.mem_cons_of_mem _ h)
      · simp only [pset, h1, h2, if_neg, Bool.false_eq_true, not_false_iff] at h
        rcases List.mem_cons.mp h with h | h
        · exact Or.inr (h ▸ List.mem_cons_self _ _)
        · rcases mem_pset h with h | h
          · exact Or.inl h
          · exact Or.inr (List.mem_cons_of_mem _ h)

/-- Sorted-insert preserves strict ascending key order: the `BTreeMap`
invariant that entries are kept in ascending lexicographic key order. -/
theorem pairwise_pset {k v : String} :
    ∀ {p : Params}, List.Pairwise keyLt p → List.Pairwise keyLt (pset k v p)
  | [], _ => by simp [pset, List.Pairwise]
  | (k', v') :: rest, h => by
    rcases List.pairwise_cons.mp h with ⟨h1, h2⟩
    by_cases c1 : strLt k k' = true
    · simp only [pset, c1, if_pos]
      refine List.pairwise_cons.mpr ⟨?_, h⟩
      intro x hx
      rcases List.mem_cons.mp hx with rfl | hx
      · exact c1
      · exact strLt_trans c1 (h1 x hx)
    · by_cases c2 : k = k'
      · subst c2
        simp only [pset, strLt_irrefl, if_neg, if_pos, Bool.false_eq_true, not_false_iff]
        exact List.pairwise_cons.mpr ⟨fun x hx => h1 x hx, h2⟩
      · simp only [pset, c1, c2, if_neg, Bool.false_eq_true, not_false_iff]
        refine List.pairwise_cons.mpr ⟨?_, pairwise_pset h2⟩
        intro x hx
        rcases mem_pset hx with rfl | hx
        · show strLt k' k = true
          exact strLt_of_not_of_ne (by simpa using c1) c2
        · exact h1 x hx

/-- Lookup after insert: the inserted key maps to the new value, every
other key is unaffected. -/
theorem getParam_pset (k v k' : String) :
    ∀ p : Params, getParam (pset k v p) k' = if k' = k then some v else getParam p k'
  | [] => by
    by_cases h : k' = k <;> simp [pset, getParam, h]
  | (k2, v2) :: rest => by
    by_cases c1 : strLt k k2 = true
    · by_cases h : k' = k <;> simp [pset, getParam, c1, h]
    · by_cases c2 : k = k2
      · subst c2
        by_cases h : k' = k <;> simp [pset, getParam, strLt_irrefl, h]
      · by_cases h : k' = k2
        · have h4 : ¬ k' = k := fun e => c2 (e.symm.trans h)
          have h5 : ¬ k2 = k := fun e => c2 e.symm
          simp [pset, getParam, c1, c2, h, h4, h5]
        · simp [pset, getParam, c1, c2, h, getParam_pset k v k' rest]

theorem strLt_trichot (a b : String) : strLt a b = true ∨ a = b ∨ strLt b a = true := by
  cases h1 : strLt a b with
  | true => exact Or.inl rfl
  | false =>
    cases h2 : strLt b a with
    | true => exact Or.inr (Or.inr rfl)
    | false => exact Or.inr (Or.inl (strLt_antisymm h1 h2))

theorem ne_of_strLt {a b : String} (h : strLt a b = true) : a ≠ b := by
  intro e
  subst e
  rw [strLt_irrefl] at h
  exact Bool.false_ne_true h

/-- Inserts of distinct keys commute. -/
theorem pset_comm {k1 k2 : String} (v1 v2 : String) (hne : k1 ≠ k2) :
    ∀ p : Params, pset k1 v1 (pset k2 v2 p) = pset k2 v2 (pset k1 v1 p)
  | [] => by
    rcases strLt_trichot k1 k2 with h3 | h3 | h3
    · simp [pset, h3, strLt_asymm h3, hne.symm]
    · exact absurd h3 hne
    · simp [pset, h3, strLt_asymm h3, hne]
  | (k', v') :: rest => by
    have hne' := hne.symm
    rcases strLt_trichot k1 k' with h1 | h1 | h1 <;>
      rcases strLt_trichot k2 k' with h2 | h2 | h2
    · -- both keys sort before the head
      rcases strLt_trichot k1 k2 with h3 | h3 | h3
      · simp [pset, h1, h2, h3, strLt_asymm h3, hne, hne']
      · exact absurd h3 hne
      · simp [pset, h1, h2, h3, strLt_asymm h3, hne, hne']
    · -- k1 before the head, k2 replaces the head
      subst h2
      simp [pset, h1, strLt_irrefl, strLt_asymm h1, hne, hne']
    · -- k1 before the head, k2 recurses
      have h3 : strLt k1 k2 = true := strLt_trans h1 h2
      simp [pset, h1, h2, h3, strLt_asymm h1, strLt_asymm h2, strLt_asymm h3, hne, hne',
        ne_of_strLt h2, (ne_of_strLt h2).symm]
    · -- k1 replaces the head, k2 before the head
      subst h1
      simp [pset, h2, strLt_irrefl, strLt_asymm h2, hne, hne']
    · -- both keys equal the head: impossible
      exact absurd (h1.trans h2.symm) hne
    · -- k1 replaces the head, k2 recurses
      subst h1
      simp [pset, h2, strLt_irrefl, strLt_asymm h2, hne, hne',
        ne_of_strLt h2, (ne_of_strLt h2).symm]
    · -- k1 recurses, k2 before the head
      have h3 : strLt k2 k1 = true := strLt_trans h2 h1
      simp [pset, h1, h2, h3, strLt_asymm h1, strLt_asymm h2, strLt_asymm h3, hne, hne',
        ne_of_strLt h1, (ne_of_strLt h1).symm]
    · -- k1 recurses, k2 replaces the head
      subst h2
      simp [pset, h1, strLt_irrefl, strLt_asymm h1, hne, hne',
        ne_of_strLt h1, (ne_of_strLt h1).symm]
    · -- both keys recurse: apply the induction hypothesis
      simp [pset, strLt_asymm h1, strLt_asymm h2, ne_of_strLt h1, (ne_of_strLt h1).symm,
        ne_of_strLt h2, (ne_of_strLt h2).symm, pset_comm v1 v2 hne rest]

/-- Folding `pset` over the entries preserves sortedness. -/
theorem pairwise_foldl_pset :
    ∀ (ops : List (String × String)) (p : Params), List.Pairwise keyLt p →
      List.Pairwise keyLt (ops.foldl (fun q kv => pset kv.1 kv.2 q) p)
  | [], _, h => h
  | kv :: rest, p, h => pairwise_foldl_pset rest (pset kv.1 kv.2 p) (pairwise_pset h)

/-- The parameter map built from any insertion sequence is in strict
ascending key order. -/
theorem pairwise_paramsOfList (ops : List (String × String)) :
    List.Pairwise keyLt (paramsOfList ops) :=
  pairwise_foldl_pset ops [] (by simp)

/-- Folding `pset` over a permuted entry list with distinct keys produces
the same map from any starting map. -/
theorem foldl_pset_perm {ops ops' : List (String × String)} (hp : List.Perm ops ops') :
    (ops.map Prod.fst).Nodup →
    ∀ p : Params, ops.foldl (fun q kv => pset kv.1 kv.2 q) p =
      ops'.foldl (fun q kv => pset kv.1 kv.2 q) p := by
  induction hp with
  | nil => intro _ p; rfl
  | cons x h ih =>
    intro hnd p
    have hnd' := (List.nodup_cons.mp hnd).2
    simpa using ih hnd' (pset x.1 x.2 p)
  | swap x y l =>
    intro hnd p
    have h0 := (List.nodup_cons.mp hnd).1
    have hxy : y.1 ≠ x.1 := fun e => h0 (by simp [e])
    simp only [List.foldl_cons]
    rw [pset_comm y.2 x.2 hxy p]
  | trans h1 h2 ih1 ih2 =>
    intro hnd p
    rw [ih1 hnd p, ih2 (h1.map Prod.fst |>.nodup hnd) p]

/-- The final parameter map is independent of insertion order, for entry
lists with pairwise-distinct keys. -/
theorem paramsOfList_perm {ops ops' : List (String × String)} (hp : List.Perm ops ops')
    (hnd : (ops.map Prod.fst).Nodup) : paramsOfList ops = paramsOfList ops' :=
  foldl_pset_perm hp hnd []

/-- Serialization of a non-empty map: first pair, then a `&`-prefixed tail
exactly when more pairs follow (never a trailing separator). -/
theorem serializeParams_cons (k v : String) (rest : Params) :
    serializeParams ((k, v) :: rest) =
      urlencode k ++ "=" ++ urlencode v ++
        (if rest = [] then "" else "&" ++ serializeParams rest) := by
  cases rest with
  | nil => simp [serializeParams, joinSep]
  | cons y ys => simp [serializeParams, joinSep, String.append_assoc]

/-! ## SHA-1 and HMAC (the `sha1` and `hmac` crates)

Bytes are `Nat` below 256; 32-bit words are `Nat` reduced modulo `2 ^ 32`
wherever addition could overflow. -/

/-- Reduction to a 32-bit word. -/
def w32 (n : Nat) : Nat := n % 4294967296

/-- Left rotation of a 32-bit word by `s` places (`0 < s < 32`). -/
def rotl (s x : Nat) : Nat := (x % 2 ^ (32 - s)) * 2 ^ s + x / 2 ^ (32 - s)

/-- Big-endian 4-byte rendering of a 32-bit word. -/
def be32 (n : Nat) : List Nat :=
  [n / 16777216 % 256, n / 65536 % 256, n / 256 % 256, n % 256]

/-- Big-endian 8-byte rendering of a 64-bit value. -/
def be64 (n : Nat) : List Nat :=
  [n / 72057594037927936 % 256, n / 281474976710656 % 256, n / 1099511627776 % 256,
   n / 4294967296 % 256, n / 16777216 % 256, n / 65536 % 256, n / 256 % 256, n % 256]

/-- Merkle-Damgard padding of SHA-1: `0x80`, zeros to 56 mod 64, then the
big-endian 64-bit bit length. -/
def sha1Pad (msg : List Nat) : List Nat :=
  let len := msg.length
  let z := (120 - (len + 1) % 64) % 64
  msg ++ [128] ++ List.replicate z 0 ++ be64 (8 * len)

/-- Split a byte sequence into 64-byte chunks. -/
def chunks64 (l : List Nat) : List (List Nat) :=
  if h : l = [] then []
  else (l.take 64) :: chunks64 (l.drop 64)
termination_by l.length
decreasing_by
  simp only [List.length_drop]
  have : 0 < l.length := List.length_pos.mpr h
  omega

/-- Big-endian 32-bit words of a byte sequence. -/
def wordsOfBytes : List Nat → List Nat
  | b0 :: b1 :: b2 :: b3 :: rest =>
    (((b0 * 256 + b1) * 256 + b2) * 256 + b3) :: wordsOfBytes rest
  | _ => []

/-- Message-schedule extension of the 16 chunk words to 80 words. -/
def sha1Extend (w : List Nat) : List Nat :=
  (List.range 64).foldl
    (fun acc _ =>
      let n := acc.length
      acc ++ [rotl 1 (acc.getD (n - 3) 0 ^^^ acc.getD (n - 8) 0 ^^^
        acc.getD (n - 14) 0 ^^^ acc.getD (n - 16) 0)])
    w

/-- Round function of SHA-1. -/
def sha1F (i b c d : Nat) : Nat :=
  if i < 20 then (b &&& c) ||| ((b ^^^ 4294967295) &&& d)
  else if i < 40 then b ^^^ c ^^^ d
  else if i < 60 then (b &&& c) ||| (b &&& d) ||| (c &&& d)
  else b ^^^ c ^^^ d

/-- Round constants of SHA-1. -/
def sha1K (i : Nat) : Nat :=
  if i < 20 then 1518500249
  else if i < 40 then 1859775393
  else if i < 60 then 2400959708
  else 3395469782

/-- Compression of one 64-byte chunk into the running state. -/
def sha1Compress (h : Nat × Nat × Nat × Nat × Nat) (chunk : List Nat) :
    Nat × Nat × Nat × Nat × Nat :=
  let w := sha1Extend (wordsOfBytes chunk)
  let s := (List.range 80).foldl
    (fun (st : Nat × Nat × Nat × Nat × Nat) i =>
      let temp := w32 (rotl 5 st.1 + sha1F i st.2.1 st.2.2.1 st.2.2.2.1 + st.2.2.2.2 +
        sha1K i + w.getD i 0)
      (temp, st.1, rotl 30 st.2.1, st.2.2.1, st.2.2.2.1)) h
  (w32 (h.1 + s.1), w32 (h.2.1 + s.2.1), w32 (h.2.2.1 + s.2.2.1),
   w32 (h.2.2.2.1 + s.2.2.2.1), w32 (h.2.2.2.2 + s.2.2.2.2))

/-- SHA-1 digest (20 bytes) of a byte sequence. -/
def sha1 (msg : List Nat) : List Nat :=
  let h := (chunks64 (sha1Pad msg)).foldl sha1Compress
    (1732584193, 4023233417, 2562383102, 271733878, 3285377520)
  be32 h.1 ++ be32 h.2.1 ++ be32 h.2.2.1 ++ be32 h.2.2.2.1 ++ be32 h.2.2.2.2

/-- HMAC-SHA1 (RFC 2104) with a 64-byte block: the `Hmac::<Sha1>` type.
`Hmac::new_from_slice` accepts keys of any length (longer keys are first
hashed), so key setup never fails. -/
def hmacSha1 (key msg : List Nat) : List Nat :=
  let key' := if 64 < key.length then sha1 key else key
  let key64 := key' ++ List.replicate (64 - key'.length) 0
  sha1 ((key64.map (fun b => b ^^^ 92)) ++ sha1 ((key64.map (fun b => b ^^^ 54)) ++ msg))

/-! ## URLs and timestamps

`reqwest::Url` (the `url` crate) and `chrono::DateTime<Utc>` are external
collaborators; we model the parts the crate uses: scheme / host / path /
query of a parsed URL, and the RFC-2822 rendering of a UTC timestamp
(seconds since the Unix epoch). -/

structure ModelUrl where
  scheme : String
  host : Option String
  path : String
  query : Option String
deriving DecidableEq, Repr

inductive HttpMethod where
  | get
  | head
  | post
  | put
  | delete
deriving DecidableEq

/-- Rendering of `reqwest::Method` (`Method::to_string`), already uppercase. -/
def methodStr : HttpMethod → String
  | .get => "GET"
  | .head => "HEAD"
  | .post => "POST"
  | .put => "PUT"
  | .delete => "DELETE"

/-- Two-digit zero-padded decimal. -/
def pad2 (n : Nat) : String := if n < 10 then "0" ++ toString n else toString n

def dayName : Nat → String
  | 0 => "Sun"
  | 1 => "Mon"
  | 2 => "Tue"
  | 3 => "Wed"
  | 4 => "Thu"
  | 5 => "Fri"
  | _ => "Sat"

def monthName : Nat → String
  | 1 => "Jan"
  | 2 => "Feb"
  | 3 => "Mar"
  | 4 => "Apr"
  | 5 => "May"
  | 6 => "Jun"
  | 7 => "Jul"
  | 8 => "Aug"
  | 9 => "Sep"
  | 10 => "Oct"
  | 11 => "Nov"
  | _ => "Dec"

/-- Gregorian (year, month, day) from days since the Unix epoch. -/
def civilFromDays (days : Nat) : Nat × Nat × Nat :=
  let z := days + 719468
  let era := z / 146097
  let doe := z % 146097
  let yoe := (doe - doe / 1460 + doe / 36524 - doe / 146096) / 365
  let y := yoe + era * 400
  let doy := doe - (365 * yoe + yoe / 4 - yoe / 100)
  let mp := (5 * doy + 2) / 153
  let d := doy - (153 * mp + 2) / 5 + 1
  let m := if mp < 10 then mp + 3 else mp - 9
  (if m ≤ 2 then y + 1 else y, m, d)

/-- Models `chrono::DateTime::<Utc>::to_rfc2822` on a timestamp given as
seconds since the Unix epoch. -/
def rfc2822 (t : Nat) : String :=
  let days := t / 86400
  let secs := t % 86400
  let c := civilFromDays days
  dayName ((days + 4) % 7) ++ ", " ++ pad2 c.2.2 ++ " " ++ monthName c.2.1 ++ " " ++
    toString c.1 ++ " " ++ pad2 (secs / 3600) ++ ":" ++ pad2 (secs % 3600 / 60) ++ ":" ++
    pad2 (secs % 60) ++ " +0000"

/-! ## DuoRequest (src/request.rs) -/

structure DuoRequest where
  url : ModelUrl
  method : HttpMethod
  path : String
  date : Nat
  parameters : Params

/-- Models `DuoRequest::new`: the timestamp is sampled exactly once, at
construction (`date: Utc::now()`), and stored in the request. The ambient
clock is passed explicitly as `now`. -/
def DuoRequest.new (now : Nat) (url : ModelUrl) (method : HttpMethod) (path : String)
    (parameters : Params) : DuoRequest :=
  { url := url, method := method, path := path, date := now, parameters := parameters }

/-- Transport-level request assembled by the builder (`reqwest::Request`):
method, final URL, headers in insertion order, optional body, and the
optional Basic-Auth credential pair (username, password). -/
structure BuiltRequest where
  method : HttpMethod
  url : ModelUrl
  headers : List (String × String)
  body : Option String
  basicAuth : Option (String × String)

/-- Models `DuoRequest::build_signature`. `none` models the
`self.url.host_str().unwrap()` panic when the URL has no host; the
`Hmac::new_from_slice` error branch is dead (any key length is accepted),
so it needs no representation. -/
def DuoRequest.buildSignature (r : DuoRequest) (skey : String) (parametersStr : String) :
    Option String :=
  match r.url.host with
  | none => none
  | some domain =>
    let payload := joinSep "\n"
      [rfc2822 r.date, (methodStr r.method).toUpper, domain, r.path, parametersStr]
    some (hexEncode (hmacSha1 (strBytes skey) (strBytes payload)))

/-- Models `DuoRequest::build`: set the path; for GET/HEAD put the encoded
parameters in the query and send no body, otherwise leave the query alone
and send them as a form-encoded body; set `Date` and Basic-Auth headers.
`none` models the `build_signature` panic on a host-less URL. -/
def DuoRequest.build (r : DuoRequest) (ikey skey : String) : Option BuiltRequest :=
  let noBody := r.method == HttpMethod.get || r.method == HttpMethod.head
  let parametersStr := serializeParams r.parameters
  let url0 := { r.url with path := r.path }
  let url1 := if noBody then { url0 with query := some parametersStr } else url0
  match r.buildSignature skey parametersStr with
  | none => none
  | some signature =>
    some { method := r.method
           url := url1
           headers := [("Date", rfc2822 r.date)] ++
             (if noBody then [] else [("Content-Type", "application/x-www-form-urlencoded")])
           body := if noBody then none else some parametersStr
           basicAuth := some (ikey, signature) }

/-- User-Agent sent by `build_no_auth`; the crate version is not recorded
in the sources, so the concrete string is left symbolic. -/
def noAuthUserAgent : String := "duo-auth-rs/0"

/-- Models `DuoRequest::build_no_auth`: same URL/body handling, `Date` and
`User-Agent` headers, and no Authorization header. It never signs, so it
is total: no URL can make it panic. -/
def DuoRequest.buildNoAuth (r : DuoRequest) : BuiltRequest :=
  let noBody := r.method == HttpMethod.get || r.method == HttpMethod.head
  let parametersStr := serializeParams r.parameters
  let url0 := { r.url with path := r.path }
  let url1 := if noBody then { url0 with query := some parametersStr } else url0
  { method := r.method
    url := url1
    headers := [("Date", rfc2822 r.date), ("User-Agent", noAuthUserAgent)] ++
      (if noBody then [] else [("Content-Type", "application/x-www-form-urlencoded")])
    body := if noBody then none else some parametersStr
    basicAuth := none }

/-! ## Errors (src/errors.rs) -/

inductive DuoError where
  | invalidApiDomain (domain : String) (cause : String)
  | apiRequestFailed (code : Nat) (message : String) (message_detail : Option String)
  | unspecified
deriving DecidableEq

/-! ## Client construction (src/client.rs) -/

/-- Models `url::Url::parse` (external `url` crate) on the inputs relevant
here: an alphabetic scheme followed by `://` yields a host-carrying URL
(empty host rejected, optional port skipped), a bare `scheme:` prefix
yields a host-less opaque URL (e.g. `data:foo`), anything else — in
particular a string with no scheme, like `"not a url"` — is a parse
error. -/
def parseUrl (s : String) : Option ModelUrl :=
  let cs := s.data
  let scheme := cs.takeWhile (fun c => c.isAlpha)
  let rest := cs.drop scheme.length
  if scheme.isEmpty then none
  else
    match rest with
    | ':' :: '/' :: '/' :: r =>
      let host := r.takeWhile (fun c => c != '/' && c != '?' && c != ':')
      if host.isEmpty then none
      else
        let after0 := r.drop host.length
        let after : List Char :=
          match after0 with
          | ':' :: t => t.dropWhile (fun c => c.isDigit)
          | _ => after0
        let path := after.takeWhile (fun c => c != '?')
        some { scheme := ⟨scheme⟩
               host := some ⟨host⟩
               path := if path.isEmpty then "/" else ⟨path⟩
               query :=
                 match after.drop path.length with
                 | [] => none
                 | _ :: q => some ⟨q⟩ }
    | ':' :: r =>
      let path := r.takeWhile (fun c => c != '?')
      some { scheme := ⟨scheme⟩
             host := none
             path := ⟨path⟩
             query :=
               match r.drop path.length with
               | [] => none
               | _ :: q => some ⟨q⟩ }
    | _ => none

/-- Immutable client state (`DuoClientInner`): base URL and credentials,
fixed at construction. -/
structure DuoClientState where
  baseUrl : ModelUrl
  ikey : String
  skey : String

/-- Models `DuoClient::new_with_client`: parse the domain, then fail fast
with `InvalidApiDomain` when parsing fails or the parsed URL has no
host. -/
def newWithClient (apiDomain ikey skey : String) : Except DuoError DuoClientState :=
  match parseUrl apiDomain with
  | none => .error (.invalidApiDomain apiDomain "relative URL without a base")
  | some url =>
    match url.host with
    | none => .error (.invalidApiDomain apiDomain "no domain in url")
    | some _ => .ok { baseUrl := url, ikey := ikey, skey := skey }

/-- Models `DuoClient::new_request`: build and sign a request against the
client's base URL and credentials (clock passed explicitly). -/
def newRequest (st : DuoClientState) (now : Nat) (method : HttpMethod) (path : String)
    (parameters : Params) : Option BuiltRequest :=
  (DuoRequest.new now st.baseUrl method path parameters).build st.ikey st.skey

/-! ## Domain types (src/types.rs) -/

/-- User identity: exactly one of `user_id` or `username` by construction
of the sum type. -/
inductive User where
  | UserId (id : String)
  | Username (username : String)

/-- Models `User::apply`: contribute exactly one of the two identity
fields. -/
def User.apply (u : User) (p : Params) : Params :=
  match u with
  | .UserId id => pset "user_id" id p
  | .Username username => pset "username" username p

inductive AuthRequestFactor where
  | Auto (device : Option String) (type : Option String) (display_username : Option String)
      (push_info : Option String)
  | Push (device : String) (type : Option String) (display_username : Option String)
      (push_info : Option String)
  | Passcode (passcode : String)
  | Phone (device : String)
  | Sms (device : String)

/-- Models `AuthRequestFactor::auto()`: the device defaults to the literal
string `"auto"`, every other optional field unset. -/
def AuthRequestFactor.auto : AuthRequestFactor :=
  .Auto (some "auto") none none none

/-- Models `AuthRequestFactor::apply`: a `factor` field carrying the
lowercase variant name, the variant's own required fields, and optional
fields only when present. -/
def AuthRequestFactor.apply (f : AuthRequestFactor) (p : Params) : Params :=
  match f with
  | .Auto device type display_username push_info =>
    psetOpt "push_info" push_info (psetOpt "display_username" display_username
      (psetOpt "type" type (psetOpt "device" device (pset "factor" "auto" p))))
  | .Push device type display_username push_info =>
    psetOpt "push_info" push_info (psetOpt "display_username" display_username
      (psetOpt "type" type (pset "device" device (pset "factor" "push" p))))
  | .Passcode passcode => pset "passcode" passcode (pset "factor" "passcode" p)
  | .Phone device => pset "device" device (pset "factor" "phone" p)
  | .Sms device => pset "device" device (pset "factor" "sms" p)

structure AuthRequest where
  user : User
  factor : AuthRequestFactor
  ipaddr : Option String
  hostname : Option String

/-- Models `AuthRequest::apply`: user identity, factor fields, then the
optional `ipaddr` and `hostname`. -/
def AuthRequest.apply (a : AuthRequest) (p : Params) : Params :=
  psetOpt "hostname" a.hostname (psetOpt "ipaddr" a.ipaddr (a.factor.apply (a.user.apply p)))

structure PreauthRequest where
  user : User
  ipaddr : Option String
  hostname : Option String
  trusted_device_token : Option String

/-- Models `PreauthRequest::apply`. -/
def PreauthRequest.apply (a : PreauthRequest) (p : Params) : Params :=
  psetOpt "trusted_device_token" a.trusted_device_token
    (psetOpt "hostname" a.hostname (psetOpt "ipaddr" a.ipaddr (a.user.apply p)))

/-! ## Per-operation parameter maps (src/client.rs) -/

/-- Parameter map of `request_auth`: `async=1` forced first, then the
request's fields. -/
def authParams (data : AuthRequest) : Params :=
  data.apply (pset "async" "1" [])

/-- Parameter map of `request_preauth`. -/
def preauthParams (data : PreauthRequest) : Params :=
  data.apply []

/-- Parameter map of `request_auth_status`. -/
def authStatusParams (txid : String) : Params :=
  pset "txid" txid []

/-- Parameter map of `request_enroll`. -/
def enrollParams (username : Option String) (valid_secs : Option Nat) : Params :=
  psetOpt "valid_secs" (valid_secs.map toString) (psetOpt "username" username [])

/-- Parameter map of `request_enroll_status`. -/
def enrollStatusParams (user_id activation_code : String) : Params :=
  pset "activation_code" activation_code (pset "user_id" user_id [])

/-! ## JSON response envelope (src/response.rs)

A minimal JSON value type stands in for `serde_json`'s data model; the
envelope decoder mirrors serde's internally-tagged deserialization of
`DuoResponse<T>` with tag field `stat` and variant names renamed to
SCREAMING_SNAKE_CASE (`Ok` to `"OK"`, `Fail` to `"FAIL"`); serde matches
the tag by exact string equality. -/

inductive Json where
  | null
  | bool (b : Bool)
  | num (n : Nat)
  | str (s : String)
  | arr (elems : List Json)
  | obj (fields : List (String × Json))

def fieldsGet : List (String × Json) → String → Option Json
  | [], _ => none
  | (k', v) :: rest, k => if k = k' then some v else fieldsGet rest k

/-- Field lookup on a JSON object. -/
def jGet : Json → String → Option Json
  | .obj fields, k => fieldsGet fields k
  | _, _ => none

/-- The decoded envelope `DuoResponse<T>`. -/
inductive DuoResponseM (T : Type) where
  | Ok (response : T)
  | Fail (code : Nat) (message : String) (message_detail : Option String)

/-- Decoding of the `Option<String>` field `message_detail`: a missing
field or JSON `null` is `None`, a string is `Some`. -/
def decodeMessageDetail (j : Option Json) : Option (Option String) :=
  match j with
  | none => some none
  | some .null => some none
  | some (.str s) => some (some s)
  | some _ => none

/-- Models serde's deserialization of `DuoResponse<T>`: discriminate on
the `stat` field by exact comparison with `"OK"` / `"FAIL"`, then decode
the variant's fields from the same object. `decT` decodes the inner
payload. -/
def decodeDuoResponse {T : Type} (decT : Json → Option T) (j : Json) :
    Option (DuoResponseM T) :=
  match jGet j "stat" with
  | some (.str tag) =>
    if tag = "OK" then
      match jGet j "response" with
      | some rj => (decT rj).map DuoResponseM.Ok
      | none => none
    else if tag = "FAIL" then
      match jGet j "code", jGet j "message" with
      | some (.num code), some (.str message) =>
        (decodeMessageDetail (jGet j "message_detail")).map (DuoResponseM.Fail code message)
      | _, _ => none
    else none
  | _ => none

/-- Models `DuoResponse::ok`: unwrap the payload or surface the failure
triple as `Error::ApiRequestFailed`. -/
def DuoResponseM.ok {T : Type} : DuoResponseM T → Except DuoError T
  | .Ok response => .ok response
  | .Fail code message message_detail =>
    .error (.apiRequestFailed code message message_detail)

/-- Payload decoder of the anonymous `CheckResponse { time: u64 }` used by
`check` and `ping`. -/
def decodeCheckResponse (j : Json) : Option Nat :=
  match jGet j "time" with
  | some (.num t) => some t
  | _ => none

/-! ## Observation helpers used by theorem statements -/

/-- Lowercase name of an `AuthRequestFactor` variant, as sent in the
`factor` field. -/
def factorName : AuthRequestFactor → String
  | .Auto .. => "auto"
  | .Push .. => "push"
  | .Passcode _ => "passcode"
  | .Phone _ => "phone"
  | .Sms _ => "sms"

/-- The `device` value a factor contributes, if any. -/
def factorDevice : AuthRequestFactor → Option String
  | .Auto device _ _ _ => device
  | .Push device _ _ _ => some device
  | .Passcode _ => none
  | .Phone device => some device
  | .Sms device => some device

/-- The `type` value a factor contributes, if any. -/
def factorType : AuthRequestFactor → Option String
  | .Auto _ type _ _ => type
  | .Push _ type _ _ => type
  | _ => none

/-- The `display_username` value a factor contributes, if any. -/
def factorDisplayUsername : AuthRequestFactor → Option String
  | .Auto _ _ display_username _ => display_username
  | .Push _ _ display_username _ => display_username
  | _ => none

/-- The `push_info` value a factor contributes, if any. -/
def factorPushInfo : AuthRequestFactor → Option String
  | .Auto _ _ _ push_info => push_info
  | .Push _ _ _ push_info => push_info
  | _ => none

/-- The `passcode` value a factor contributes, if any. -/
def factorPasscode : AuthRequestFactor → Option String
  | .Passcode passcode => some passcode
  | _ => none

/-! ## Lookup rewriting lemmas -/

theorem getParam_nil (k : String) : getParam [] k = none := rfl

theorem getParam_pset_self (k v : String) (p : Params) :
    getParam (pset k v p) k = some v := by simp [getParam_pset]

theorem getParam_pset_ne {k k' : String} (v : String) (p : Params) (h : k' ≠ k) :
    getParam (pset k v p) k' = getParam p k' := by simp [getParam_pset, h]

theorem getParam_psetOpt_ne {k k' : String} (v : Option String) (p : Params) (h : k' ≠ k) :
    getParam (psetOpt k v p) k' = getParam p k' := by
  cases v <;> simp [psetOpt, getParam_pset, h]

theorem getParam_psetOpt_self_of_none {k : String} (v : Option String) {p : Params}
    (h : getParam p k = none) : getParam (psetOpt k v p) k = v := by
  cases v <;> simp [psetOpt, getParam_pset, h]

/-! ## Claims about the response envelope (src/response.rs) -/

/-- C4. `DuoResponse::ok` returns the inner payload unchanged on the `Ok`
variant and an `ApiRequestFailed` error carrying exactly the code, message
and optional detail on the `Fail` variant; these are the only outcomes.
The concrete conjuncts run the two specified example bodies through the
envelope decoder: the `OK` body yields success with `time == 123`, the
`FAIL` body yields failure with code 40002 and no detail. -/
theorem duoResponse_ok_exclusive :
    (∀ (T : Type) (r : T), (DuoResponseM.Ok r).ok = Except.ok r) ∧
    (∀ (T : Type) (code : Nat) (message : String) (message_detail : Option String),
      (DuoResponseM.Fail (T := T) code message message_detail).ok =
        Except.error (.apiRequestFailed code message message_detail)) ∧
    (∀ (T : Type) (env : DuoResponseM T),
      (∃ r, env = .Ok r ∧ env.ok = Except.ok r) ∨
      (∃ c m d, env = .Fail c m d ∧
        env.ok = Except.error (.apiRequestFailed c m d))) ∧
    ((decodeDuoResponse decodeCheckResponse
        (Json.obj [("stat", Json.str "OK"),
          ("response", Json.obj [("time", Json.num 123)])])).map DuoResponseM.ok =
      some (Except.ok 123)) ∧
    ((decodeDuoResponse decodeCheckResponse
        (Json.obj [("stat", Json.str "FAIL"), ("code", Json.num 40002),
          ("message", Json.str "Invalid signature"),
          ("message_detail", Json.null)])).map DuoResponseM.ok =
      some (Except.error (.apiRequestFailed 40002 "Invalid signature" none))) := by
  refine ⟨fun T r => rfl, fun T c m d => rfl, fun T env => ?_, rfl, rfl⟩
  cases env with
  | Ok r => exact Or.inl ⟨r, rfl, rfl⟩
  | Fail c m d => exact Or.inr ⟨c, m, d, rfl, rfl⟩

/-- C3, counterexample. The decoder does not accept the tag
case-insensitively: a body whose `stat` is `"ok"` (lowercase) is rejected,
not normalized to the success variant. -/
theorem decode_stat_lowercase_rejected :
    decodeDuoResponse (fun j => some j)
      (Json.obj [("stat", Json.str "ok"), ("response", Json.obj [])]) = none ∧
    decodeDuoResponse (fun j => some j)
      (Json.obj [("stat", Json.str "Fail"), ("code", Json.num 1),
        ("message", Json.str "m"), ("message_detail", Json.null)]) = none :=
  ⟨rfl, rfl⟩

/-- C3, amended. The envelope decoder discriminates on the tag field
`stat` and accepts exactly the strings `"OK"` and `"FAIL"`, by exact
(case-sensitive) comparison: whenever decoding succeeds, `stat` is
literally `"OK"` or literally `"FAIL"`. -/
theorem decode_stat_exact :
    ∀ (T : Type) (decT : Json → Option T) (j : Json),
      (decodeDuoResponse decT j).isSome = true →
      jGet j "stat" = some (Json.str "OK") ∨ jGet j "stat" = some (Json.str "FAIL") := by
  intro T decT j h
  unfold decodeDuoResponse at h
  cases hstat : jGet j "stat" with
  | none => rw [hstat] at h; simp at h
  | some tj =>
    rw [hstat] at h
    cases tj with
    | str tag =>
      by_cases hOK : tag = "OK"
      · subst hOK
        exact Or.inl rfl
      · by_cases hFAIL : tag = "FAIL"
        · subst hFAIL
          exact Or.inr rfl
        · simp [hOK, hFAIL] at h
    | null => simp at h
    | bool b => simp at h
    | num n => simp at h
    | arr elems => simp at h
    | obj fields => simp at h

/-- C3, witness for the amended claim at a concrete accepted body. -/
theorem decode_stat_exact_witness :
    jGet (Json.obj [("stat", Json.str "OK"), ("response", Json.obj [("time", Json.num 123)])])
        "stat" = some (Json.str "OK") ∨
    jGet (Json.obj [("stat", Json.str "OK"), ("response", Json.obj [("time", Json.num 123)])])
        "stat" = some (Json.str "FAIL") :=
  decode_stat_exact Nat decodeCheckResponse
    (Json.obj [("stat", Json.str "OK"), ("response", Json.obj [("time", Json.num 123)])])
    (by rfl)

/-! ## Claims about client construction (src/client.rs) -/

/-- C6. Construction returns `InvalidApiDomain` exactly when the domain
fails to parse as an absolute URL or parses to a URL with no host (and
those are the only failure modes, surfaced at construction); concretely,
`"not a url"` fails and `"https://api-xyz.duosecurity.com"` succeeds. -/
theorem newWithClient_invalid_domain :
    (∀ d i s, (∃ c, newWithClient d i s = .error (.invalidApiDomain d c)) ↔
      (parseUrl d = none ∨ ∃ u, parseUrl d = some u ∧ u.host = none)) ∧
    (∀ d i s, (∃ st, newWithClient d i s = .ok st) ∨
      (∃ c, newWithClient d i s = .error (.invalidApiDomain d c))) ∧
    (∀ i s, ∃ c, newWithClient "not a url" i s = .error (.invalidApiDomain "not a url" c)) ∧
    (∀ i s, ∃ st, newWithClient "https://api-xyz.duosecurity.com" i s = .ok st) := by
  refine ⟨fun d i s => ⟨?_, ?_⟩, fun d i s => ?_, fun i s => ⟨"relative URL without a base", rfl⟩,
    fun i s => ⟨_, rfl⟩⟩
  · rintro ⟨c, hc⟩
    cases hp : parseUrl d with
    | none => exact Or.inl rfl
    | some u =>
      cases hh : u.host with
      | none => exact Or.inr ⟨u, rfl, hh⟩
      | some host =>
        rw [newWithClient.eq_def, hp] at hc
        simp [hh] at hc
  · rintro (hp | ⟨u, hp, hh⟩)
    · exact ⟨"relative URL without a base", by rw [newWithClient.eq_def, hp]⟩
    · exact ⟨"no domain in url", by rw [newWithClient.eq_def, hp]; simp [hh]⟩
  · cases hp : parseUrl d with
    | none =>
      exact Or.inr ⟨"relative URL without a base", by rw [newWithClient.eq_def, hp]⟩
    | some u =>
      cases hh : u.host with
      | none =>
        exact Or.inr ⟨"no domain in url", by rw [newWithClient.eq_def, hp]; simp [hh]⟩
      | some host =>
        exact Or.inl ⟨{ baseUrl := u, ikey := i, skey := s },
          by rw [newWithClient.eq_def, hp]; simp [hh]⟩

/-! ## Claims about the request builder (src/request.rs) -/

/-- C5. For every successfully built request: with method GET or HEAD the
query is set to the canonical parameter string, no body is attached and no
Content-Type header is set; with any other method the query is the base
URL's query unmodified, the body is the canonical parameter string and
Content-Type is `application/x-www-form-urlencoded`. The two modes are
mutually exclusive (the hypotheses of the two conjuncts are complementary)
and both use the same encoded string `serializeParams r.parameters`. -/
theorem build_body_query_modes :
    ∀ (r : DuoRequest) (ikey skey : String) (br : BuiltRequest),
      r.build ikey skey = some br →
      ((r.method = .get ∨ r.method = .head) →
        br.url.query = some (serializeParams r.parameters) ∧
        br.body = none ∧
        getParam br.headers "Content-Type" = none) ∧
      (¬(r.method = .get ∨ r.method = .head) →
        br.url.query = r.url.query ∧
        br.body = some (serializeParams r.parameters) ∧
        getParam br.headers "Content-Type" =
          some "application/x-www-form-urlencoded") := by
  intro r ikey skey br hb
  simp only [DuoRequest.build] at hb
  cases hs : r.buildSignature skey (serializeParams r.parameters) with
  | none => rw [hs] at hb; simp at hb
  | some signature =>
    rw [hs] at hb
    simp only [Option.some.injEq] at hb
    subst hb
    cases r.method <;>
      simp [getParam, Option.some.injEq]

/-- C5, witness: instantiate the mode dichotomy at one GET request and one
POST request against a host-carrying URL. -/
theorem build_body_query_modes_witness :
    ((DuoRequest.new 0 { scheme := "https", host := some "h", path := "/", query := none }
        HttpMethod.get "/auth/v2/ping" []).build "ik" "sk").isSome = true ∧
    ((DuoRequest.new 0 { scheme := "https", host := some "h", path := "/", query := none }
        HttpMethod.post "/auth/v2/auth" []).build "ik" "sk").isSome = true ∧
    (∀ br, (DuoRequest.new 0 { scheme := "https", host := some "h", path := "/", query := none }
        HttpMethod.get "/auth/v2/ping" []).build "ik" "sk" = some br →
        br.body = none) := by
  refine ⟨rfl, rfl, fun br hb => ?_⟩
  exact ((build_body_query_modes _ "ik" "sk" br hb).1 (Or.inl rfl)).2.1

/-! ## Claims about per-operation parameter maps -/

/-- C7. The `auth` parameter map contains `async=1` unconditionally, a
`factor` field equal to the lowercase variant name, exactly the variant's
own fields (an optional field is present in the map precisely when it is
set, so unset optional fields are omitted entirely), the request's
optional `ipaddr`/`hostname` likewise, and `AuthRequestFactor::auto()`
defaults the device to the literal `"auto"`. -/
theorem authParams_fields :
    ∀ data : AuthRequest,
      getParam (authParams data) "async" = some "1" ∧
      getParam (authParams data) "factor" = some (factorName data.factor) ∧
      getParam (authParams data) "device" = factorDevice data.factor ∧
      getParam (authParams data) "type" = factorType data.factor ∧
      getParam (authParams data) "display_username" = factorDisplayUsername data.factor ∧
      getParam (authParams data) "push_info" = factorPushInfo data.factor ∧
      getParam (authParams data) "passcode" = factorPasscode data.factor ∧
      getParam (authParams data) "ipaddr" = data.ipaddr ∧
      getParam (authParams data) "hostname" = data.hostname ∧
      AuthRequestFactor.auto = .Auto (some "auto") none none none := by
  rintro ⟨user, factor, ipaddr, hostname⟩
  cases user <;> cases factor <;>
    simp [authParams, AuthRequest.apply, AuthRequestFactor.apply, User.apply,
      factorName, factorDevice, factorType, factorDisplayUsername, factorPushInfo,
      factorPasscode, AuthRequestFactor.auto, getParam_psetOpt_ne,
      getParam_psetOpt_self_of_none, getParam_pset, getParam_nil]

/-- C9. For every `AuthRequest` and every `PreauthRequest`, the final
parameter map contains exactly one of `user_id` / `username`: the one
selected by the `User` sum type carries the identity value, the other is
absent — never both, never neither. -/
theorem user_identity_exclusive :
    ∀ (a : AuthRequest) (pr : PreauthRequest),
      (match a.user with
       | .UserId id =>
         getParam (authParams a) "user_id" = some id ∧
         getParam (authParams a) "username" = none
       | .Username username =>
         getParam (authParams a) "username" = some username ∧
         getParam (authParams a) "user_id" = none) ∧
      (match pr.user with
       | .UserId id =>
         getParam (preauthParams pr) "user_id" = some id ∧
         getParam (preauthParams pr) "username" = none
       | .Username username =>
         getParam (preauthParams pr) "username" = some username ∧
         getParam (preauthParams pr) "user_id" = none) := by
  rintro ⟨user, factor, ipaddr, hostname⟩ ⟨puser, pipaddr, phostname, ptoken⟩
  constructor
  · cases user <;> cases factor <;>
      simp [authParams, AuthRequest.apply, AuthRequestFactor.apply, User.apply,
        getParam_psetOpt_ne, getParam_pset, getParam_nil]
  · cases puser <;>
      simp [preauthParams, PreauthRequest.apply, User.apply,
        getParam_psetOpt_ne, getParam_pset, getParam_nil]

/-! ## Claims about signing (src/request.rs, src/client.rs) -/

theorem charToNat_ofNat {n : Nat} (h : n.isValidChar) : (Char.ofNat n).toNat = n := by
  unfold Char.ofNat
  split
  · rfl
  · simp_all

theorem hexDigitLower_range {n : Nat} (h : n < 16) :
    (48 ≤ (hexDigitLower n).toNat ∧ (hexDigitLower n).toNat ≤ 57) ∨
    (97 ≤ (hexDigitLower n).toNat ∧ (hexDigitLower n).toNat ≤ 102) := by
  unfold hexDigitLower
  split
  · left
    rw [charToNat_ofNat (Or.inl (by omega))]
    omega
  · right
    rw [charToNat_ofNat (Or.inl (by omega))]
    omega

theorem mem_be32_lt {b n : Nat} (h : b ∈ be32 n) : b < 256 := by
  simp [be32] at h
  rcases h with rfl | rfl | rfl | rfl <;> omega

theorem sha1_bytes_lt (msg : List Nat) : ∀ b ∈ sha1 msg, b < 256 := by
  intro b hb
  simp only [sha1, List.mem_append] at hb
  rcases hb with ((((hb | hb) | hb) | hb) | hb) <;> exact mem_be32_lt hb

theorem hmacSha1_bytes_lt (key msg : List Nat) : ∀ b ∈ hmacSha1 key msg, b < 256 := by
  intro b hb
  simp only [hmacSha1] at hb
  exact sha1_bytes_lt _ b hb

/-- Every character of a hex encoding of genuine bytes is a decimal digit
or a lowercase `a`-`f`. -/
theorem hexEncode_lowercase {bs : List Nat} (hbs : ∀ b ∈ bs, b < 256) :
    ∀ c ∈ (hexEncode bs).data,
      (48 ≤ c.toNat ∧ c.toNat ≤ 57) ∨ (97 ≤ c.toNat ∧ c.toNat ≤ 102) := by
  intro c hc
  simp only [hexEncode, List.mem_flatMap, List.mem_cons, List.not_mem_nil, or_false] at hc
  rcases hc with ⟨b, hb, rfl | rfl⟩
  · exact hexDigitLower_range (by have := hbs b hb; omega)
  · exact hexDigitLower_range (by have := hbs b hb; omega)

/-- C1. For every successfully built request, the Basic-Auth password is
the lowercase hexadecimal HMAC-SHA1, keyed by the secret key's UTF-8
bytes, of the newline-joined 5-line payload [RFC-2822 timestamp, method
uppercased, URL host, request path, canonical parameter string]; the
`Date` header carries the identical timestamp string; and the timestamp
is captured once, at `DuoRequest::new`, from the construction-time
clock. -/
theorem build_signature_payload :
    (∀ (now : Nat) (url : ModelUrl) (method : HttpMethod) (path : String) (ps : Params),
      (DuoRequest.new now url method path ps).date = now) ∧
    (∀ (r : DuoRequest) (ikey skey : String) (br : BuiltRequest),
      r.build ikey skey = some br →
      ∃ domain, r.url.host = some domain ∧
        br.basicAuth = some (ikey,
          hexEncode (hmacSha1 (strBytes skey) (strBytes (joinSep "\n"
            [rfc2822 r.date, (methodStr r.method).toUpper, domain, r.path,
             serializeParams r.parameters])))) ∧
        getParam br.headers "Date" = some (rfc2822 r.date) ∧
        ∀ c ∈ (hexEncode (hmacSha1 (strBytes skey) (strBytes (joinSep "\n"
            [rfc2822 r.date, (methodStr r.method).toUpper, domain, r.path,
             serializeParams r.parameters])))).data,
          (48 ≤ c.toNat ∧ c.toNat ≤ 57) ∨ (97 ≤ c.toNat ∧ c.toNat ≤ 102)) := by
  refine ⟨fun now url method path ps => rfl, ?_⟩
  intro r ikey skey br hb
  simp only [DuoRequest.build] at hb
  cases hh : r.url.host with
  | none =>
    simp only [DuoRequest.buildSignature, hh] at hb
    simp at hb
  | some domain =>
    simp only [DuoRequest.buildSignature, hh] at hb
    simp only [Option.some.injEq] at hb
    subst hb
    refine ⟨domain, rfl, rfl, by simp [getParam], ?_⟩
    exact hexEncode_lowercase (hmacSha1_bytes_lt _ _)

/-- Concrete signed request used to witness C1. -/
def c1WitnessRequest : DuoRequest :=
  DuoRequest.new 1057056757
    { scheme := "https", host := some "api-xyz.duosecurity.com", path := "/", query := none }
    HttpMethod.post "/auth/v2/auth" (pset "async" "1" [])

/-- The request `c1WitnessRequest` builds to (total by construction: its
URL has a host). -/
def c1WitnessBuilt : BuiltRequest :=
  match c1WitnessRequest.build "ik" "sk" with
  | some br => br
  | none =>
    { method := .get, url := { scheme := "", host := none, path := "", query := none },
      headers := [], body := none, basicAuth := none }

/-- C1, witness: the payload/ password relationship instantiated on a
concrete POST request. -/
theorem build_signature_payload_witness :
    ∃ domain, c1WitnessRequest.url.host = some domain ∧
      c1WitnessBuilt.basicAuth = some ("ik",
        hexEncode (hmacSha1 (strBytes "sk") (strBytes (joinSep "\n"
          [rfc2822 c1WitnessRequest.date, (methodStr c1WitnessRequest.method).toUpper, domain,
           c1WitnessRequest.path, serializeParams c1WitnessRequest.parameters])))) ∧
      getParam c1WitnessBuilt.headers "Date" = some (rfc2822 c1WitnessRequest.date) ∧
      ∀ c ∈ (hexEncode (hmacSha1 (strBytes "sk") (strBytes (joinSep "\n"
          [rfc2822 c1WitnessRequest.date, (methodStr c1WitnessRequest.method).toUpper, domain,
           c1WitnessRequest.path, serializeParams c1WitnessRequest.parameters])))).data,
        (48 ≤ c.toNat ∧ c.toNat ≤ 57) ∨ (97 ≤ c.toNat ∧ c.toNat ≤ 102) :=
  build_signature_payload.2 c1WitnessRequest "ik" "sk" c1WitnessBuilt (by rfl)

/-- C10. `build_signature` models the `host_str().unwrap()` panic as
`none`: any request whose URL lacks a host makes `build` fail there, for
arbitrary callers; but every request constructed through the client's
operations succeeds, because `new_with_client` rejects base URLs without
a host at construction, so under that precondition the unwrap is safe. -/
theorem build_host_panic_unreachable :
    (∀ (r : DuoRequest) (ikey skey : String),
      r.url.host = none → r.build ikey skey = none) ∧
    (∀ (d i s : String) (st : DuoClientState), newWithClient d i s = .ok st →
      ∀ (now : Nat) (method : HttpMethod) (path : String) (parameters : Params),
        (newRequest st now method path parameters).isSome = true) := by
  constructor
  · intro r ikey skey hh
    simp only [DuoRequest.build, DuoRequest.buildSignature, hh]
  · intro d i s st hok now method path parameters
    have hh : ∃ h, st.baseUrl.host = some h := by
      rw [newWithClient.eq_def] at hok
      cases hp : parseUrl d with
      | none => rw [hp] at hok; simp at hok
      | some u =>
        rw [hp] at hok
        cases hu : u.host with
        | none => simp [hu] at hok
        | some hst =>
          simp only [hu] at hok
          injection hok with h2
          subst h2
          exact ⟨hst, hu⟩
    rcases hh with ⟨h, hh⟩
    simp [newRequest, DuoRequest.new, DuoRequest.build, DuoRequest.buildSignature, hh]

/-- C10, witness: a host-less request fails to build, and a request built
through a successfully constructed client does build. -/
theorem build_host_panic_unreachable_witness :
    ((DuoRequest.new 0 { scheme := "data", host := none, path := "foo", query := none }
        HttpMethod.get "/p" []).build "i" "s" = none) ∧
    (newRequest
        { baseUrl :=
            { scheme := "https", host := some "api-xyz.duosecurity.com", path := "/",
              query := none }
          ikey := "ik"
          skey := "sk" } 0 HttpMethod.get
        "/auth/v2/ping" []).isSome = true := by
  constructor
  · exact build_host_panic_unreachable.1 _ "i" "s" rfl
  · exact build_host_panic_unreachable.2 "https://api-xyz.duosecurity.com" "ik" "sk" _
      (by rfl) 0 HttpMethod.get "/auth/v2/ping" []

/-! ## Claims about the canonical parameter encoding -/

/-- C2. `Parameters::serialize` renders the entries in strict ascending
lexicographic key order (the `BTreeMap` order, preserved by every
insertion sequence), percent-encodes each key and value, joins the pairs
as `k1=v1&k2=v2...` with `&` between pairs and none trailing, sends the
empty map to the empty string, and its output depends only on the final
key/value set: permuting the insertion order of distinct-keyed entries
(and serializing any number of times) yields the identical string. -/
theorem serialize_sorted_canonical :
    (∀ ops : List (String × String), List.Pairwise keyLt (paramsOfList ops)) ∧
    serializeParams [] = "" ∧
    (∀ (k v : String) (rest : Params),
      serializeParams ((k, v) :: rest) =
        urlencode k ++ "=" ++ urlencode v ++
          (if rest = [] then "" else "&" ++ serializeParams rest)) ∧
    (∀ ops ops' : List (String × String), List.Perm ops ops' →
      (ops.map Prod.fst).Nodup →
      serializeParams (paramsOfList ops) = serializeParams (paramsOfList ops')) := by
  refine ⟨pairwise_paramsOfList, rfl, serializeParams_cons, fun ops ops' hp hnd => ?_⟩
  rw [paramsOfList_perm hp hnd]

/-- C2, witness: sortedness and insertion-order independence on a concrete
two-entry map inserted in both orders. -/
theorem serialize_sorted_canonical_witness :
    List.Pairwise keyLt (paramsOfList [("b", "2"), ("a", "1")]) ∧
    serializeParams (paramsOfList [("b", "2"), ("a", "1")]) =
      serializeParams (paramsOfList [("a", "1"), ("b", "2")]) :=
  ⟨serialize_sorted_canonical.1 _,
    serialize_sorted_canonical.2.2.2 _ _ (List.Perm.swap ("a", "1") ("b", "2") [])
      (by decide)⟩

/-! ## Percent-decoding (the spec's round-trip property, C8)

The encoding side (`serializeParams`, `urlencode`) is embedded from the
source; the decoding side below follows the spec's words: split on `&`,
split each piece on its first `=`, percent-decode each side (a `%XX`
escape contributes one byte, any other character contributes itself),
then read the recovered bytes back as UTF-8. -/

/-- Value of one hexadecimal digit, either case. -/
def hexVal (c : Char) : Option Nat :=
  if 48 ≤ c.toNat ∧ c.toNat ≤ 57 then some (c.toNat - 48)
  else if 65 ≤ c.toNat ∧ c.toNat ≤ 70 then some (c.toNat - 55)
  else if 97 ≤ c.toNat ∧ c.toNat ≤ 102 then some (c.toNat - 87)
  else none

/-- Decode the next byte of a percent-encoded character sequence: a `%XX`
escape consumes three characters, anything else consumes one and stands
for its own code point. Returns the byte and the number of characters
consumed. -/
def pctDecodeOne : List Char → Option (Nat × Nat)
  | [] => none
  | c :: rest =>
    if c = '%' then
      match rest with
      | hi :: lo :: _ =>
        match hexVal hi, hexVal lo with
        | some hv, some lv => some (hv * 16 + lv, 3)
        | _, _ => none
      | _ => none
    else some (c.toNat, 1)

theorem pctDecodeOne_pos : ∀ {l : List Char} {b k : Nat},
    pctDecodeOne l = some (b, k) → 0 < k := by
  intro l b k h
  rcases l with _ | ⟨c, _ | ⟨hi, _ | ⟨lo, rest⟩⟩⟩ <;>
    (simp only [pctDecodeOne] at h; repeat split at h)
  all_goals simp_all
  all_goals (repeat split at h)
  all_goals (try simp_all)
  all_goals (repeat split at h)
  all_goals (try simp_all)
  all_goals omega

/-- Percent-decoding of a character sequence into bytes. -/
def pctDecodeBytes (l : List Char) : Option (List Nat) :=
  match l with
  | [] => some []
  | c :: rest =>
    match h : pctDecodeOne (c :: rest) with
    | some (b, k) => (pctDecodeBytes ((c :: rest).drop k)).map (fun bs => b :: bs)
    | none => none
termination_by l.length
decreasing_by
  simp only [List.length_drop, List.length_cons]
  have := pctDecodeOne_pos h
  omega

/-- Decode the next code point of a UTF-8 byte sequence (strict: rejects
overlong forms, surrogates and out-of-range code points). Returns the code
point and the number of bytes consumed. -/
def utf8DecodeOne : List Nat → Option (Nat × Nat)
  | [] => none
  | b :: rest =>
    if b < 128 then some (b, 1)
    else if b < 192 then none
    else if b < 224 then
      match rest with
      | b1 :: _ =>
        if 128 ≤ b1 ∧ b1 < 192 then
          let cp := (b - 192) * 64 + (b1 - 128)
          if 128 ≤ cp then some (cp, 2) else none
        else none
      | [] => none
    else if b < 240 then
      match rest with
      | b1 :: b2 :: _ =>
        if (128 ≤ b1 ∧ b1 < 192) ∧ (128 ≤ b2 ∧ b2 < 192) then
          let cp := (b - 224) * 4096 + (b1 - 128) * 64 + (b2 - 128)
          if 2048 ≤ cp ∧ (cp < 55296 ∨ 57344 ≤ cp) then some (cp, 3) else none
        else none
      | _ => none
    else if b < 248 then
      match rest with
      | b1 :: b2 :: b3 :: _ =>
        if (128 ≤ b1 ∧ b1 < 192) ∧ (128 ≤ b2 ∧ b2 < 192) ∧ (128 ≤ b3 ∧ b3 < 192) then
          let cp := (b - 240) * 262144 + (b1 - 128) * 4096 + (b2 - 128) * 64 + (b3 - 128)
          if 65536 ≤ cp ∧ cp < 1114112 then some (cp, 4) else none
        else none
      | _ => none
    else none

set_option maxHeartbeats 1000000 in
theorem utf8DecodeOne_pos : ∀ {l : List Nat} {cp k : Nat},
    utf8DecodeOne l = some (cp, k) → 0 < k := by
  intro l cp k h
  rcases l with _ | ⟨b, _ | ⟨b1, _ | ⟨b2, _ | ⟨b3, rest⟩⟩⟩⟩ <;>
    (simp only [utf8DecodeOne] at h; repeat split at h)
  all_goals simp_all
  all_goals (repeat split at h)
  all_goals (try simp_all)
  all_goals (repeat split at h)
  all_goals (try simp_all)
  all_goals omega

/-- UTF-8 decoding of a byte sequence. -/
def utf8DecodeBytes (l : List Nat) : Option (List Char) :=
  match l with
  | [] => some []
  | b :: rest =>
    match h : utf8DecodeOne (b :: rest) with
    | some (cp, k) => (utf8DecodeBytes ((b :: rest).drop k)).map (fun cs => Char.ofNat cp :: cs)
    | none => none
termination_by l.length
decreasing_by
  simp only [List.length_drop, List.length_cons]
  have := utf8DecodeOne_pos h
  omega

/-- Percent-decoding of a string back to a string. -/
def pctDecodeStr (s : String) : Option String :=
  match pctDecodeBytes s.data with
  | some bs =>
    match utf8DecodeBytes bs with
    | some cs => some ⟨cs⟩
    | none => none
  | none => none

/-- Split a character sequence on a separator (adjacent separators yield
empty pieces; `n` separators yield `n + 1` pieces). -/
def splitOnChar (sep : Char) : List Char → List (List Char)
  | [] => [[]]
  | c :: rest =>
    let s := splitOnChar sep rest
    if c = sep then [] :: s
    else (c :: s.headD []) :: s.tail

/-- Decode one `key=value` piece: split on the first `=` and
percent-decode each side. -/
def decodePiece (piece : List Char) : Option (String × String) :=
  let k := piece.takeWhile (fun c => c != '=')
  match piece.drop k.length with
  | '=' :: v =>
    match pctDecodeStr ⟨k⟩, pctDecodeStr ⟨v⟩ with
    | some ks, some vs => some (ks, vs)
    | _, _ => none
  | _ => none

def decodePieces : List (List Char) → Option (List (String × String))
  | [] => some []
  | p :: ps =>
    match decodePiece p with
    | some kv => (decodePieces ps).map (fun kvs => kv :: kvs)
    | none => none

/-- The spec's decoding direction: the empty string is the empty map;
otherwise split on `&` and decode each piece. -/
def decodeParams (s : String) : Option (List (String × String)) :=
  if s = "" then some []
  else decodePieces (splitOnChar '&' s.data)


/-! ## Round-trip lemmas: UTF-8 -/

theorem char_eq_of_toNat_eq {a b : Char} (h : a.toNat = b.toNat) : a = b :=
  Char.eq_of_val_eq (UInt32.ext h)

theorem char_toNat_valid (c : Char) : c.toNat.isValidChar := c.valid

/-- Stepping lemma: when the head of the byte sequence decodes, the whole
sequence decodes as that code point followed by the rest. -/
theorem utf8DecodeBytes_step {b : Nat} {rest : List Nat} {cp k : Nat}
    (h : utf8DecodeOne (b :: rest) = some (cp, k)) :
    utf8DecodeBytes (b :: rest) =
      (utf8DecodeBytes ((b :: rest).drop k)).map (fun cs => Char.ofNat cp :: cs) := by
  rw [utf8DecodeBytes.eq_def]
  split
  · next heq => exact absurd heq (by simp)
  · next b2 rest2 heq =>
    split
    · next cp2 k2 heq2 =>
      injection heq with e1 e2
      subst e1
      subst e2
      rw [h] at heq2
      injection heq2 with heq3
      injection heq3 with e3 e4
      subst e3
      subst e4
      rfl
    · next heq2 =>
      injection heq with e1 e2
      subst e1
      subst e2
      rw [h] at heq2
      simp at heq2

theorem utf8DecodeBytes_nil : utf8DecodeBytes [] = some [] := by
  rw [utf8DecodeBytes.eq_def]

theorem utf8EncodeCP_ne_nil (n : Nat) : utf8EncodeCP n ≠ [] := by
  unfold utf8EncodeCP
  repeat' split
  all_goals simp

/-- The head of one encoded code point, followed by anything, decodes back
to that code point, consuming exactly the encoding. -/
theorem utf8DecodeOne_encode {n : Nat} (hv : n.isValidChar) (rest : List Nat) :
    utf8DecodeOne (utf8EncodeCP n ++ rest) = some (n, (utf8EncodeCP n).length) := by
  have hlt : n < 55296 ∨ (57344 ≤ n ∧ n < 1114112) := hv
  rcases Nat.lt_or_ge n 128 with h1 | h1
  · have e : utf8EncodeCP n = [n] := by simp [utf8EncodeCP, h1]
    rw [e, List.singleton_append]
    cases rest <;> simp [utf8DecodeOne, h1, e]
  · rcases Nat.lt_or_ge n 2048 with h2 | h2
    · have e : utf8EncodeCP n = [192 + n / 64, 128 + n % 64] := by
        have : ¬ n < 128 := by omega
        simp [utf8EncodeCP, this, h2]
      rw [e, List.cons_append, List.cons_append, List.nil_append]
      have d1 : ¬ (192 + n / 64 < 128) := by omega
      have d2 : ¬ (192 + n / 64 < 192) := by omega
      have d3 : 192 + n / 64 < 224 := by omega
      have d4 : 128 ≤ 128 + n % 64 ∧ 128 + n % 64 < 192 := by omega
      have d5 : 128 ≤ (192 + n / 64 - 192) * 64 + (128 + n % 64 - 128) := by omega
      have d6 : (192 + n / 64 - 192) * 64 + (128 + n % 64 - 128) = n := by omega
      simp only [utf8DecodeOne, if_neg d1, if_neg d2, if_pos d3, if_pos d4, if_pos d5, d6, e,
        List.length_cons, List.length_nil]
      simp [h1]
    · rcases Nat.lt_or_ge n 65536 with h3 | h3
      · have e : utf8EncodeCP n = [224 + n / 4096, 128 + n / 64 % 64, 128 + n % 64] := by
          have e1 : ¬ n < 128 := by omega
          have e2 : ¬ n < 2048 := by omega
          simp [utf8EncodeCP, e1, e2, h3]
        rw [e, List.cons_append, List.cons_append, List.cons_append, List.nil_append]
        have d1 : ¬ (224 + n / 4096 < 128) := by omega
        have d2 : ¬ (224 + n / 4096 < 192) := by omega
        have d3 : ¬ (224 + n / 4096 < 224) := by omega
        have d4 : 224 + n / 4096 < 240 := by omega
        have d5 : (128 ≤ 128 + n / 64 % 64 ∧ 128 + n / 64 % 64 < 192) ∧
            (128 ≤ 128 + n % 64 ∧ 128 + n % 64 < 192) := by omega
        have d6 : 2048 ≤ (224 + n / 4096 - 224) * 4096 + (128 + n / 64 % 64 - 128) * 64 +
            (128 + n % 64 - 128) ∧
            ((224 + n / 4096 - 224) * 4096 + (128 + n / 64 % 64 - 128) * 64 +
              (128 + n % 64 - 128) < 55296 ∨
             57344 ≤ (224 + n / 4096 - 224) * 4096 + (128 + n / 64 % 64 - 128) * 64 +
              (128 + n % 64 - 128)) := by omega
        have d7 : (224 + n / 4096 - 224) * 4096 + (128 + n / 64 % 64 - 128) * 64 +
            (128 + n % 64 - 128) = n := by omega
        simp only [utf8DecodeOne, if_neg d1, if_neg d2, if_neg d3, if_pos d4, if_pos d5,
          if_pos d6, d7, e, List.length_cons, List.length_nil]
        have g : 2048 ≤ n ∧ (n < 55296 ∨ 57344 ≤ n) := by omega
        simp [g]
      · have e : utf8EncodeCP n =
            [240 + n / 262144, 128 + n / 4096 % 64, 128 + n / 64 % 64, 128 + n % 64] := by
          have e1 : ¬ n < 128 := by omega
          have e2 : ¬ n < 2048 := by omega
          have e3 : ¬ n < 65536 := by omega
          simp [utf8EncodeCP, e1, e2, e3]
        rw [e, List.cons_append, List.cons_append, List.cons_append, List.cons_append,
          List.nil_append]
        have d1 : ¬ (240 + n / 262144 < 128) := by omega
        have d2 : ¬ (240 + n / 262144 < 192) := by omega
        have d3 : ¬ (240 + n / 262144 < 224) := by omega
        have d4 : ¬ (240 + n / 262144 < 240) := by omega
        have d5 : 240 + n / 262144 < 248 := by omega
        have d6 : (128 ≤ 128 + n / 4096 % 64 ∧ 128 + n / 4096 % 64 < 192) ∧
            (128 ≤ 128 + n / 64 % 64 ∧ 128 + n / 64 % 64 < 192) ∧
            (128 ≤ 128 + n % 64 ∧ 128 + n % 64 < 192) := by omega
        have d7 : 65536 ≤ (240 + n / 262144 - 240) * 262144 + (128 + n / 4096 % 64 - 128) * 4096 +
            (128 + n / 64 % 64 - 128) * 64 + (128 + n % 64 - 128) ∧
            (240 + n / 262144 - 240) * 262144 + (128 + n / 4096 % 64 - 128) * 4096 +
              (128 + n / 64 % 64 - 128) * 64 + (128 + n % 64 - 128) < 1114112 := by omega
        have d8 : (240 + n / 262144 - 240) * 262144 + (128 + n / 4096 % 64 - 128) * 4096 +
            (128 + n / 64 % 64 - 128) * 64 + (128 + n % 64 - 128) = n := by omega
        simp only [utf8DecodeOne, if_neg d1, if_neg d2, if_neg d3, if_neg d4, if_pos d5,
          if_pos d6, if_pos d7, d8, e, List.length_cons, List.length_nil]
        have g : 65536 ≤ n ∧ n < 1114112 := by omega
        simp [g]

/-- One encoded code point, followed by anything, decodes to that code
point followed by the decoding of the remainder. -/
theorem utf8Decode_encode_cons {n : Nat} (hv : n.isValidChar) (rest : List Nat) :
    utf8DecodeBytes (utf8EncodeCP n ++ rest) =
      (utf8DecodeBytes rest).map (fun cs => Char.ofNat n :: cs) := by
  have h1 := utf8DecodeOne_encode hv rest
  obtain ⟨b, t, e⟩ : ∃ b t, utf8EncodeCP n ++ rest = b :: t := by
    cases he : utf8EncodeCP n with
    | nil => exact absurd he (utf8EncodeCP_ne_nil n)
    | cons b t => exact ⟨b, t ++ rest, by simp⟩
  rw [e] at h1 ⊢
  rw [utf8DecodeBytes_step h1]
  congr 1
  rw [← e, List.drop_left]

/-- UTF-8 decoding inverts the encoding of any character sequence. -/
theorem utf8Decode_flatMap (cs : List Char) :
    utf8DecodeBytes (cs.flatMap (fun ch => utf8EncodeCP ch.toNat)) = some cs := by
  induction cs with
  | nil => simpa using utf8DecodeBytes_nil
  | cons ch rest ih =>
    rw [List.flatMap_cons, utf8Decode_encode_cons (char_toNat_valid ch)]
    simp [ih, Char.ofNat_toNat]

/-- UTF-8 decoding inverts `strBytes`. -/
theorem utf8Decode_strBytes (s : String) : utf8DecodeBytes (strBytes s) = some s.data :=
  utf8Decode_flatMap s.data

/-! ## Round-trip lemmas: percent-encoding -/

theorem utf8EncodeCP_lt {n : Nat} (h : n < 1114112) : ∀ b ∈ utf8EncodeCP n, b < 256 := by
  intro b hb
  rcases Nat.lt_or_ge n 128 with h1 | h1
  · simp [utf8EncodeCP, h1] at hb
    omega
  · rcases Nat.lt_or_ge n 2048 with h2 | h2
    · have e1 : ¬ n < 128 := by omega
      simp [utf8EncodeCP, e1, h2] at hb
      rcases hb with rfl | rfl <;> omega
    · rcases Nat.lt_or_ge n 65536 with h3 | h3
      · have e1 : ¬ n < 128 := by omega
        have e2 : ¬ n < 2048 := by omega
        simp [utf8EncodeCP, e1, e2, h3] at hb
        rcases hb with rfl | rfl | rfl <;> omega
      · have e1 : ¬ n < 128 := by omega
        have e2 : ¬ n < 2048 := by omega
        have e3 : ¬ n < 65536 := by omega
        simp [utf8EncodeCP, e1, e2, e3] at hb
        rcases hb with rfl | rfl | rfl | rfl <;> omega

theorem strBytes_lt (s : String) : ∀ b ∈ strBytes s, b < 256 := by
  intro b hb
  simp only [strBytes, List.mem_flatMap] at hb
  obtain ⟨ch, _, hb⟩ := hb
  have hv := char_toNat_valid ch
  have hn : ch.toNat < 1114112 := by
    rcases hv with h | ⟨_, h⟩ <;> omega
  exact utf8EncodeCP_lt hn b hb

theorem unreserved_facts {b : Nat} (h : isUrlUnreserved b = true) :
    b < 128 ∧ b ≠ 37 ∧ b ≠ 38 ∧ b ≠ 61 := by
  simp [isUrlUnreserved] at h
  omega

theorem hexDigitUpper_toNat_range {m : Nat} (h : m < 16) :
    (48 ≤ (hexDigitUpper m).toNat ∧ (hexDigitUpper m).toNat ≤ 57) ∨
    (65 ≤ (hexDigitUpper m).toNat ∧ (hexDigitUpper m).toNat ≤ 70) := by
  unfold hexDigitUpper
  split
  · left
    rw [charToNat_ofNat (Or.inl (by omega))]
    omega
  · right
    rw [charToNat_ofNat (Or.inl (by omega))]
    omega

theorem hexVal_hexDigitUpper {m : Nat} (h : m < 16) : hexVal (hexDigitUpper m) = some m := by
  by_cases h10 : m < 10
  · have ht : (hexDigitUpper m).toNat = 48 + m := by
      unfold hexDigitUpper
      rw [if_pos h10]
      exact charToNat_ofNat (Or.inl (by omega))
    unfold hexVal
    rw [ht, if_pos ⟨by omega, by omega⟩]
    congr 1
    omega
  · have ht : (hexDigitUpper m).toNat = 55 + m := by
      unfold hexDigitUpper
      rw [if_neg h10]
      exact charToNat_ofNat (Or.inl (by omega))
    unfold hexVal
    rw [ht, if_neg (by omega), if_pos ⟨by omega, by omega⟩]
    congr 1
    omega

theorem pctDecodeOne_other {c : Char} (rest : List Char) (hne : ¬ c = '%') :
    pctDecodeOne (c :: rest) = some (c.toNat, 1) := by
  rcases rest with _ | ⟨a, _ | ⟨b, t⟩⟩ <;> simp [pctDecodeOne, hne]

theorem pctDecodeOne_escape {hi lo : Char} {hv lv : Nat} (rest : List Char)
    (h1 : hexVal hi = some hv) (h2 : hexVal lo = some lv) :
    pctDecodeOne ('%' :: hi :: lo :: rest) = some (hv * 16 + lv, 3) := by
  simp [pctDecodeOne, h1, h2]

theorem pctDecodeBytes_step {c : Char} {rest : List Char} {b k : Nat}
    (h : pctDecodeOne (c :: rest) = some (b, k)) :
    pctDecodeBytes (c :: rest) =
      (pctDecodeBytes ((c :: rest).drop k)).map (fun bs => b :: bs) := by
  rw [pctDecodeBytes.eq_def]
  split
  · next heq => exact absurd heq (by simp)
  · next c2 rest2 heq =>
    split
    · next b2 k2 heq2 =>
      injection heq with e1 e2
      subst e1
      subst e2
      rw [h] at heq2
      injection heq2 with heq3
      injection heq3 with e3 e4
      subst e3
      subst e4
      rfl
    · next heq2 =>
      injection heq with e1 e2
      subst e1
      subst e2
      rw [h] at heq2
      simp at heq2

theorem pctDecodeBytes_nil : pctDecodeBytes [] = some [] := by
  rw [pctDecodeBytes.eq_def]

/-- Percent-decoding inverts the per-byte percent-encoding. -/
theorem pctDecode_flatMap {bs : List Nat} (h : ∀ b ∈ bs, b < 256) :
    pctDecodeBytes (bs.flatMap pctEncodeByte) = some bs := by
  induction bs with
  | nil => exact pctDecodeBytes_nil
  | cons b bs ih =>
    have hb : b < 256 := h b (List.mem_cons_self _ _)
    have ih' := ih (fun x hx => h x (List.mem_cons_of_mem _ hx))
    rw [List.flatMap_cons]
    by_cases hu : isUrlUnreserved b
    · obtain ⟨hlt, h37, _, _⟩ := unreserved_facts hu
      have e : pctEncodeByte b = [Char.ofNat b] := by simp [pctEncodeByte, hu]
      rw [e, List.singleton_append]
      have ht : (Char.ofNat b).toNat = b := charToNat_ofNat (Or.inl (by omega))
      have hne : ¬ Char.ofNat b = '%' := by
        intro e2
        have h3 : (Char.ofNat b).toNat = 37 := by rw [e2]; rfl
        rw [ht] at h3
        exact h37 h3
      rw [pctDecodeBytes_step (pctDecodeOne_other _ hne)]
      simp [ht, ih']
    · have e : pctEncodeByte b = ['%', hexDigitUpper (b / 16), hexDigitUpper (b % 16)] := by
        simp [pctEncodeByte, hu]
      rw [e]
      simp only [List.cons_append, List.nil_append]
      have k1 : hexVal (hexDigitUpper (b / 16)) = some (b / 16) :=
        hexVal_hexDigitUpper (by omega)
      have k2 : hexVal (hexDigitUpper (b % 16)) = some (b % 16) :=
        hexVal_hexDigitUpper (by omega)
      rw [pctDecodeBytes_step (pctDecodeOne_escape _ k1 k2)]
      have hb16 : b / 16 * 16 + b % 16 = b := by omega
      simp [hb16, ih']

/-- Percent-decoding inverts `urlencode` on whole strings. -/
theorem pctDecodeStr_urlencode (s : String) : pctDecodeStr (urlencode s) = some s := by
  have e1 : pctDecodeBytes (urlencode s).data = some (strBytes s) := by
    show pctDecodeBytes ((strBytes s).flatMap pctEncodeByte) = _
    exact pctDecode_flatMap (strBytes_lt s)
  simp only [pctDecodeStr, e1, utf8Decode_strBytes]

/-- No character of a percent-encoded string is `&` or `=`. -/
theorem mem_pctEncodeByte_toNat {b : Nat} (hb : b < 256) {c : Char}
    (hc : c ∈ pctEncodeByte b) : c.toNat ≠ 38 ∧ c.toNat ≠ 61 := by
  unfold pctEncodeByte at hc
  split at hc
  · next hu =>
    obtain ⟨hlt, h37, h38, h61⟩ := unreserved_facts hu
    simp at hc
    subst hc
    rw [charToNat_ofNat (Or.inl (by omega))]
    exact ⟨h38, h61⟩
  · next hu =>
    simp at hc
    rcases hc with rfl | rfl | rfl
    · constructor <;> decide
    · have := hexDigitUpper_toNat_range (show b / 16 < 16 by omega)
      omega
    · have := hexDigitUpper_toNat_range (show b % 16 < 16 by omega)
      omega

theorem urlencode_no_amp_eq (s : String) :
    ∀ c ∈ (urlencode s).data, c ≠ '&' ∧ c ≠ '=' := by
  intro c hc
  have e : (urlencode s).data = (strBytes s).flatMap pctEncodeByte := rfl
  rw [e] at hc
  simp only [List.mem_flatMap] at hc
  obtain ⟨b, hb, hc⟩ := hc
  obtain ⟨h38, h61⟩ := mem_pctEncodeByte_toNat (strBytes_lt s b hb) hc
  constructor
  · intro e2
    subst e2
    exact h38 (by decide)
  · intro e2
    subst e2
    exact h61 (by decide)

/-! ## Round-trip lemmas: splitting on separators -/

theorem splitOnChar_no_sep {sep : Char} : ∀ {l : List Char}, sep ∉ l → splitOnChar sep l = [l]
  | [], _ => rfl
  | c :: rest, h => by
    have hc : ¬ c = sep := fun e => h (e ▸ List.mem_cons_self _ _)
    have hr : sep ∉ rest := fun e => h (List.mem_cons_of_mem _ e)
    simp [splitOnChar, hc, splitOnChar_no_sep hr]

theorem splitOnChar_append {sep : Char} : ∀ {xd : List Char} (rest : List Char), sep ∉ xd →
    splitOnChar sep (xd ++ sep :: rest) = xd :: splitOnChar sep rest
  | [], rest, _ => by simp [splitOnChar]
  | c :: xd, rest, h => by
    have hc : ¬ c = sep := fun e => h (e ▸ List.mem_cons_self _ _)
    have hx : sep ∉ xd := fun e => h (List.mem_cons_of_mem _ e)
    simp [splitOnChar, hc, splitOnChar_append rest hx]

theorem joinSep_data_cons (x y : String) (ys : List String) :
    (joinSep "&" (x :: y :: ys)).data = x.data ++ '&' :: (joinSep "&" (y :: ys)).data := by
  show (x ++ "&" ++ joinSep "&" (y :: ys)).data = _
  rw [String.data_append, String.data_append]
  simp

/-- Splitting the `&`-join of `&`-free pieces recovers the pieces. -/
theorem splitOnChar_joinSep : ∀ (ss : List String), ss ≠ [] →
    (∀ p ∈ ss, '&' ∉ p.data) →
    splitOnChar '&' (joinSep "&" ss).data = ss.map String.data
  | [], h, _ => absurd rfl h
  | [x], _, hp => by
    show splitOnChar '&' x.data = [x.data]
    exact splitOnChar_no_sep (hp x (by simp))
  | x :: y :: ys, _, hp => by
    rw [joinSep_data_cons, splitOnChar_append _ (hp x (by simp)),
      splitOnChar_joinSep (y :: ys) (by simp) (fun p hmem => hp p (by simp [hmem]))]
    rfl

theorem list_takeWhile_append {p : Char → Bool} : ∀ (xs : List Char) (y : Char) (ys : List Char),
    (∀ x ∈ xs, p x = true) → p y = false → List.takeWhile p (xs ++ y :: ys) = xs
  | [], y, ys, _, hy => by simp [List.takeWhile_cons, hy]
  | x :: xs, y, ys, hall, hy => by
    simp [List.takeWhile_cons, hall x (by simp),
      list_takeWhile_append xs y ys (fun z hz => hall z (by simp [hz])) hy]

/-- Decoding one encoded `key=value` piece recovers the pair. -/
theorem decodePiece_encoded (k v : String) :
    decodePiece ((urlencode k ++ "=" ++ urlencode v).data) = some (k, v) := by
  have hdata : (urlencode k ++ "=" ++ urlencode v).data
      = (urlencode k).data ++ '=' :: (urlencode v).data := by
    rw [String.data_append, String.data_append]
    simp
  rw [hdata]
  have htw : List.takeWhile (fun c => c != '=')
      ((urlencode k).data ++ '=' :: (urlencode v).data) = (urlencode k).data := by
    apply list_takeWhile_append
    · intro x hx
      simpa using (urlencode_no_amp_eq k x hx).2
    · simp
  simp only [decodePiece, htw, List.drop_left]
  have ek : pctDecodeStr ⟨(urlencode k).data⟩ = some k := by
    have : (⟨(urlencode k).data⟩ : String) = urlencode k := rfl
    rw [this, pctDecodeStr_urlencode]
  have ev : pctDecodeStr ⟨(urlencode v).data⟩ = some v := by
    have : (⟨(urlencode v).data⟩ : String) = urlencode v := rfl
    rw [this, pctDecodeStr_urlencode]
  simp [ek, ev]

theorem decodePieces_encoded : ∀ p : Params,
    decodePieces ((p.map (fun kv => urlencode kv.1 ++ "=" ++ urlencode kv.2)).map String.data)
      = some p
  | [] => rfl
  | (k, v) :: rest => by
    simp only [List.map_cons, decodePieces, decodePiece_encoded, decodePieces_encoded rest]
    rfl

theorem encoded_piece_no_amp (k v : String) : '&' ∉ (urlencode k ++ "=" ++ urlencode v).data := by
  intro hc
  rw [String.data_append, String.data_append] at hc
  rcases List.mem_append.mp hc with hc | hc
  · rcases List.mem_append.mp hc with hc | hc
    · exact (urlencode_no_amp_eq k _ hc).1 rfl
    · simp at hc
  · exact (urlencode_no_amp_eq v _ hc).1 rfl

/-- C8. Encode-then-decode is the identity on every parameter map: for
arbitrary keys and values (including ones containing `&`, `=`, spaces and
non-ASCII characters), splitting `Parameters::serialize`'s output on `&`,
splitting each piece on its first `=`, and percent-decoding each side
recovers exactly the original key/value entries. -/
theorem serialize_roundtrip : ∀ p : Params, decodeParams (serializeParams p) = some p := by
  intro p
  cases p with
  | nil => rfl
  | cons kv rest =>
    obtain ⟨k, v⟩ := kv
    have hne : serializeParams ((k, v) :: rest) ≠ "" := by
      intro e
      have hd : (serializeParams ((k, v) :: rest)).data = [] := by rw [e]
      have hj : ∃ t, (serializeParams ((k, v) :: rest)).data =
          (urlencode k ++ "=" ++ urlencode v).data ++ t := by
        show ∃ t, (joinSep "&" (((k, v) :: rest).map
          (fun kv => urlencode kv.1 ++ "=" ++ urlencode kv.2))).data = _
        cases hrest : rest.map (fun kv => urlencode kv.1 ++ "=" ++ urlencode kv.2) with
        | nil => exact ⟨[], by simp [hrest, joinSep]⟩
        | cons y ys =>
          refine ⟨'&' :: (joinSep "&" (y :: ys)).data, ?_⟩
          simp only [List.map_cons, hrest]
          exact joinSep_data_cons _ y ys
      obtain ⟨t, ht⟩ := hj
      rw [hd] at ht
      have : '=' ∈ ([] : List Char) := by
        rw [ht]
        rw [String.data_append]
        simp
      simp at this
    unfold decodeParams
    rw [if_neg hne]
    show decodePieces (splitOnChar '&' (joinSep "&" (((k, v) :: rest).map
      (fun kv => urlencode kv.1 ++ "=" ++ urlencode kv.2))).data) = _
    have hp : ∀ piece ∈ ((k, v) :: rest).map (fun kv => urlencode kv.1 ++ "=" ++ urlencode kv.2),
        '&' ∉ piece.data := by
      intro piece hmem
      simp only [List.mem_map] at hmem
      obtain ⟨⟨k2, v2⟩, _, rfl⟩ := hmem
      exact encoded_piece_no_amp k2 v2
    rw [splitOnChar_joinSep _ (by simp) hp]
    exact decodePieces_encoded _

end DuoAuth
